import Mathlib

/-!
Verification of the application orchestrator (src/app.rs of the tuisky
repository): a shallow embedding of App::run, its startup sequence, its
event interception, its action drain loop and its render pass, together
with theorems settling the frozen claims about them.
-/

namespace Tuisky

/-- Intents flowing through the action queue. Modelled from the spec: the
Action enum lives in the types module, which is not among the provided
sources; per the specification it has Tick, Render, Quit and Error
variants plus an open implementation-defined extension, represented here
by an integer tag. -/
inductive Action : Type where
  | tick (i : Nat)
  | render
  | quit
  | error (msg : String)
  | other (tag : Nat)
deriving DecidableEq

/-- Modelled from the crossterm crate (an external dependency): the key
modifier bitset with its six modifier bits SHIFT, CONTROL, ALT, SUPER,
HYPER and META. -/
structure KeyModifiers : Type where
  shift : Bool
  control : Bool
  alt : Bool
  superM : Bool
  hyperM : Bool
  metaM : Bool
deriving DecidableEq

/-- The CONTROL modifier constant: exactly the control bit set. -/
def KeyModifiers.CONTROL : KeyModifiers :=
  ⟨false, true, false, false, false, false⟩

/-- Modelled from the crossterm crate: key codes, with the Char variant
that the quit hotkey check inspects and an integer tag standing for every
other key code. -/
inductive KeyCode : Type where
  | char (c : Char)
  | otherCode (tag : Nat)
deriving DecidableEq

/-- Modelled from the crossterm crate: a key event carries a key code and
a modifier set. -/
structure KeyEvent : Type where
  code : KeyCode
  modifiers : KeyModifiers
deriving DecidableEq

/-- Modelled from the spec: the Event enum of the types module is not
among the provided sources; per the specification it has Tick, Render,
Key, Mouse, Resize and Quit variants plus implementation-defined ones,
represented here by an integer tag. -/
inductive Event : Type where
  | tick (i : Nat)
  | render
  | key (k : KeyEvent)
  | mouse (tag : Nat)
  | resize (w h : Nat)
  | quit
  | otherEvent (tag : Nat)
deriving DecidableEq

/-- Translation of App::handle_key_events: the character c or q with the
modifier set equal to CONTROL maps to the quit action, everything else to
none. -/
def App.handle_key_events (k : KeyEvent) : Option Action :=
  if (k.code = KeyCode.char 'c' ∨ k.code = KeyCode.char 'q')
      ∧ k.modifiers = KeyModifiers.CONTROL then
    some Action.quit
  else
    none

/-- Translation of App::handle_events: the global interception deriving at
most one orchestrator-level action from an event. A tick event maps to a
tick action, a render event to a render action, a key event goes through
App.handle_key_events, and every other event yields none. -/
def App.handle_events (e : Event) : Option Action :=
  match e with
  | Event.tick i => some (Action.tick i)
  | Event.render => some Action.render
  | Event.key k => App.handle_key_events k
  | _ => none

/-- C7: the global interception derives at most one action per event: a
tick event with sequence i maps exactly to the tick action with sequence
i, a render event maps to the render action, a key event maps to an
action only for the designated quit characters carried with exactly the
control modifier (and that action is always quit), and mouse, resize, the
event-level quit and implementation-defined events derive no action. -/
theorem handle_events_mapping :
    (∀ i, App.handle_events (Event.tick i) = some (Action.tick i))
    ∧ App.handle_events Event.render = some Action.render
    ∧ (∀ k, App.handle_events (Event.key k) = some Action.quit
        ↔ ((k.code = KeyCode.char 'c' ∨ k.code = KeyCode.char 'q')
            ∧ k.modifiers = KeyModifiers.CONTROL))
    ∧ (∀ k a, App.handle_events (Event.key k) = some a → a = Action.quit)
    ∧ (∀ t, App.handle_events (Event.mouse t) = none)
    ∧ (∀ w h, App.handle_events (Event.resize w h) = none)
    ∧ App.handle_events Event.quit = none
    ∧ (∀ t, App.handle_events (Event.otherEvent t) = none) := by
  refine ⟨fun i => rfl, rfl, fun k => ?_, fun k a h => ?_, fun t => rfl,
    fun w h => rfl, rfl, fun t => rfl⟩
  · show App.handle_key_events k = some Action.quit ↔ _
    unfold App.handle_key_events
    split
    case isTrue hc => simpa using hc
    case isFalse hc => simpa using hc
  · revert h
    show App.handle_key_events k = some a → a = Action.quit
    unfold App.handle_key_events
    split
    · intro h; exact (Option.some.inj h).symm
    · intro h; exact Option.noConfusion h

/-- Witness for handle_events_mapping at the concrete control-q key
event. -/
theorem handle_events_mapping_witness :
    App.handle_events (Event.key ⟨KeyCode.char 'q', KeyModifiers.CONTROL⟩)
      = some Action.quit :=
  (handle_events_mapping.2.2.1 ⟨KeyCode.char 'q', KeyModifiers.CONTROL⟩).mpr
    (by decide)

/-- C9: the quit hotkey requires the modifier set to be exactly CONTROL:
with any additional modifier bit set the key handler returns none, and it
also returns none for any key code other than the characters c and q. -/
theorem quit_hotkey_exact_modifiers :
    (∀ k : KeyEvent, k.modifiers.control = true →
        (k.modifiers.shift = true ∨ k.modifiers.alt = true
          ∨ k.modifiers.superM = true ∨ k.modifiers.hyperM = true
          ∨ k.modifiers.metaM = true) →
        App.handle_key_events k = none)
    ∧ (∀ k : KeyEvent, k.code ≠ KeyCode.char 'c' → k.code ≠ KeyCode.char 'q' →
        App.handle_key_events k = none) := by
  constructor
  · intro k hc hx
    unfold App.handle_key_events
    rw [if_neg]
    rintro ⟨-, hm⟩
    rcases hx with h | h | h | h | h <;> rw [hm] at h <;>
      simp [KeyModifiers.CONTROL] at h
  · intro k hc hq
    unfold App.handle_key_events
    rw [if_neg]
    rintro ⟨hcq, -⟩
    rcases hcq with h | h
    · exact hc h
    · exact hq h

/-- Witness for quit_hotkey_exact_modifiers: control plus shift with the
character q produces no action. -/
theorem quit_hotkey_exact_modifiers_witness :
    App.handle_key_events
      ⟨KeyCode.char 'q', ⟨true, true, false, false, false, false⟩⟩ = none :=
  quit_hotkey_exact_modifiers.1
    ⟨KeyCode.char 'q', ⟨true, true, false, false, false, false⟩⟩ rfl (Or.inl rfl)

variable {σ : Type}

/-- State of the orchestrator main loop: the action queue contents, an
abstract component state sigma, the quit flag, whether the consumer half
of the action channel is still alive, plus instrumentation recording the
dequeued actions in order, the actions pushed through the channel, and
the number of save invocations. -/
structure LoopState (σ : Type) : Type where
  queue : List Action
  s : σ
  shouldQuit : Bool
  rxAlive : Bool
  processed : List Action
  enqLog : List Action
  saves : Nat
deriving DecidableEq

/-- Translation of a send on the action channel: appends to the queue
while the consumer half is alive, fails otherwise. -/
def sendA (st : LoopState σ) (a : Action) : Option (LoopState σ) :=
  if st.rxAlive then
    some { st with queue := st.queue ++ [a], enqLog := st.enqLog ++ [a] }
  else
    none

/-- Send an optional action, as the if-let-some-send idiom of the source
does. -/
def sendOpt (st : LoopState σ) : Option Action → Option (LoopState σ)
  | none => some st
  | some a => sendA st a

/-- Send a list of actions in order, failing on the first failed send. -/
def sendList (st : LoopState σ) : List Action → Option (LoopState σ)
  | [] => some st
  | a :: rest =>
    match sendA st a with
    | none => none
    | some st1 => sendList st1 rest

/-- Fan a call out over a list of component behaviours (the main
component first), sending each returned follow-up action; the optional
string is a propagated component error or a failed send. -/
def fanout (calls : List (σ → Except String (Option Action × σ)))
    (st : LoopState σ) : LoopState σ × Option String :=
  match calls with
  | [] => (st, none)
  | f :: rest =>
    match f st.s with
    | Except.error e => (st, some e)
    | Except.ok pr =>
      match sendOpt { st with s := pr.2 } pr.1 with
      | none => ({ st with s := pr.2 }, some "channel closed")
      | some st1 => fanout rest st1

/-- The component environment of one run: the behaviour of the main
component, of the attached components and of the terminal, with the
abstract component state sigma threaded through every call. The tuiDraw
field is modelled from the spec: the tui module is not among the provided
sources, and per the specification its draw invokes the supplied closure
on a frame and may itself fail. -/
structure Components (σ : Type) : Type where
  mainHandle : σ → Event → Except String (Option Action × σ)
  compHandles : List (σ → Event → Except String (Option Action × σ))
  mainUpdate : σ → Action → Except String (Option Action × σ)
  compUpdates : List (σ → Action → Except String (Option Action × σ))
  mainSave : σ → Except String Unit
  mainDraw : σ → Option String × σ
  logDraw : σ → Option String
  compDraws : List (σ → Option String × σ)
  tuiDraw : Except String Unit

/-- Identifies one draw call of the render closure. -/
inductive DrawOp : Type where
  | mainD
  | logD
  | compD (i : Nat)
deriving DecidableEq

/-- The draw operations of the attached components with indices starting
at the first argument. -/
def compOps : Nat → Nat → List DrawOp
  | _, 0 => []
  | i, n + 1 => DrawOp.compD i :: compOps (i + 1) n

/-- Run the attached component draws in order, collecting each optional
error message and the draw operations performed. -/
def drawComps : List (σ → Option String × σ) → Nat → σ →
    σ × List (Option String) × List DrawOp
  | [], _, s => (s, [], [])
  | d :: rest, i, s =>
    let p := d s
    let q := drawComps rest (i + 1) p.2
    (q.1, p.1 :: q.2.1, DrawOp.compD i :: q.2.2)

/-- Result of the render closure: the component state afterwards, the
optional error of each draw call in order, and the draw calls made. -/
structure RenderOut (σ : Type) : Type where
  s : σ
  results : List (Option String)
  drawn : List DrawOp

/-- Translation of the closure passed to tui.draw in the render branch of
App::run: draw the main component into the left region, the log component
into the right region, then every attached component into the left
region, recording each result. -/
def renderPass (env : Components σ) (s : σ) : RenderOut σ :=
  let pm := env.mainDraw s
  let el := env.logDraw pm.2
  let pc := drawComps env.compDraws 0 pm.2
  ⟨pc.1, pm.1 :: el :: pc.2.1, DrawOp.mainD :: DrawOp.logD :: pc.2.2⟩

/-- Convert the draw failures to error actions exactly as the render
closure formats them. -/
def renderErrors (results : List (Option String)) : List Action :=
  results.filterMap
    (fun r => Option.map (fun m => Action.error ("failed to draw: " ++ m)) r)

/-- How one drain iteration ends: fail (a propagated error), panic (the
expect on a failed send inside the render closure), finish (queue
observed empty) or fuel exhaustion. -/
inductive DStatus : Type where
  | finished
  | failed (e : String)
  | panicked
  | fuelOut
deriving DecidableEq

/-- Outcome of a single drain step: continue with a new state, or stop
with a state and a status. -/
inductive StepOut (σ : Type) : Type where
  | cont (st : LoopState σ)
  | stop (st : LoopState σ) (status : DStatus)
deriving DecidableEq

/-- The state carried by a step outcome. -/
def StepOut.state : StepOut σ → LoopState σ
  | StepOut.cont st => st
  | StepOut.stop st _ => st

/-- Translation of the tick arm of the drain match: when the sequence
number is a multiple of ten, App::save (the main component save) is
invoked, and its failure stops the loop with an error. -/
def tickBranch (env : Components σ) (i : Nat) (st1 : LoopState σ) : StepOut σ :=
  if i % 10 == 0 then
    match env.mainSave st1.s with
    | Except.ok _ => StepOut.cont { st1 with saves := st1.saves + 1 }
    | Except.error e =>
      StepOut.stop { st1 with saves := st1.saves + 1 } (DStatus.failed e)
  else
    StepOut.cont st1

/-- Translation of the render arm of the drain match: run the render
closure, send an error action for every draw failure (with the expect
panic on a failed send), then propagate a failure of tui.draw itself. -/
def renderBranch (env : Components σ) (st1 : LoopState σ) : StepOut σ :=
  let r := renderPass env st1.s
  let stl : LoopState σ := { st1 with s := r.s }
  match sendList stl (renderErrors r.results) with
  | none => StepOut.stop stl DStatus.panicked
  | some st2 =>
    match env.tuiDraw with
    | Except.ok _ => StepOut.cont st2
    | Except.error e => StepOut.stop st2 (DStatus.failed e)

/-- Translation of the catch-all arm of the drain match: fan the action
out to the main component update then every attached component update,
sending each returned follow-up. -/
def updateBranch (env : Components σ) (a : Action) (st1 : LoopState σ) :
    StepOut σ :=
  let p := fanout ((env.mainUpdate :: env.compUpdates).map (fun f s => f s a)) st1
  match p.2 with
  | none => StepOut.cont p.1
  | some e => StepOut.stop p.1 (DStatus.failed e)

/-- Dispatch one dequeued action exactly as the match of the drain loop
of App::run does: quit sets the flag, tick goes through the save check,
render runs the draw pass, and everything else is fanned out to the
component updates. -/
def dispatch (env : Components σ) (a : Action) (st1 : LoopState σ) : StepOut σ :=
  match a with
  | Action.quit => StepOut.cont { st1 with shouldQuit := true }
  | Action.tick i => tickBranch env i st1
  | Action.render => renderBranch env st1
  | Action.error m => updateBranch env (Action.error m) st1
  | Action.other t => updateBranch env (Action.other t) st1

/-- One iteration of the while-let drain loop of App::run: dequeue the
head action and dispatch it; an empty queue finishes the pass. -/
def drainStep (env : Components σ) (st : LoopState σ) : StepOut σ :=
  match st.queue with
  | [] => StepOut.stop st DStatus.finished
  | a :: rest =>
    dispatch env a { st with queue := rest, processed := st.processed ++ [a] }

/-- Final answer of a drain pass: the resulting state plus the status. -/
structure DrainOut (σ : Type) : Type where
  st : LoopState σ
  status : DStatus
deriving DecidableEq

/-- Translation of the while-let drain loop, with explicit fuel bounding
the number of dequeue iterations. -/
def drain (env : Components σ) : Nat → LoopState σ → DrainOut σ
  | 0, st => ⟨st, DStatus.fuelOut⟩
  | fuel + 1, st =>
    match drainStep env st with
    | StepOut.cont st1 => drain env fuel st1
    | StepOut.stop st1 status => ⟨st1, status⟩

/-- The loop state of App::run right after the channel is created: given
queue contents, a component state, the quit flag clear, the consumer
alive and empty instrumentation. -/
def initState (q0 : List Action) (s0 : σ) : LoopState σ :=
  { queue := q0, s := s0, shouldQuit := false, rxAlive := true,
    processed := [], enqLog := [], saves := 0 }

/-- Does this action trigger a save in the drain loop. -/
def isSaveTick : Action → Bool
  | Action.tick i => i % 10 == 0
  | _ => false

/-- Number of save-triggering ticks in a list of actions. -/
def tickSaves (l : List Action) : Nat := (l.filter isSaveTick).length

/-- A helper call only appended some list of actions, the same one, to
the queue and the send log, and left the processed list, the quit flag,
the consumer flag and the save counter unchanged (the component state may
change freely). -/
def SendsOnly (st st1 : LoopState σ) : Prop :=
  (∃ d, st1.queue = st.queue ++ d ∧ st1.enqLog = st.enqLog ++ d)
    ∧ st1.processed = st.processed
    ∧ st1.shouldQuit = st.shouldQuit
    ∧ st1.rxAlive = st.rxAlive
    ∧ st1.saves = st.saves

theorem sendsOnly_refl (st : LoopState σ) : SendsOnly st st :=
  ⟨⟨[], by simp, by simp⟩, rfl, rfl, rfl, rfl⟩

theorem sendsOnly_s (st : LoopState σ) (s1 : σ) :
    SendsOnly st { st with s := s1 } :=
  ⟨⟨[], by simp, by simp⟩, rfl, rfl, rfl, rfl⟩

theorem sendsOnly_trans {st1 st2 st3 : LoopState σ}
    (h1 : SendsOnly st1 st2) (h2 : SendsOnly st2 st3) : SendsOnly st1 st3 := by
  obtain ⟨⟨d1, hq1, he1⟩, hp1, hf1, hr1, hs1⟩ := h1
  obtain ⟨⟨d2, hq2, he2⟩, hp2, hf2, hr2, hs2⟩ := h2
  refine ⟨⟨d1 ++ d2, ?_, ?_⟩, hp2.trans hp1, hf2.trans hf1,
    hr2.trans hr1, hs2.trans hs1⟩
  · rw [hq2, hq1, List.append_assoc]
  · rw [he2, he1, List.append_assoc]

theorem sendA_sendsOnly {st st1 : LoopState σ} {a : Action}
    (h : sendA st a = some st1) : SendsOnly st st1 := by
  unfold sendA at h
  split at h
  · injection h with h
    subst h
    exact ⟨⟨[a], rfl, rfl⟩, rfl, rfl, rfl, rfl⟩
  · exact Option.noConfusion h

theorem sendOpt_sendsOnly {st st1 : LoopState σ} {oa : Option Action}
    (h : sendOpt st oa = some st1) : SendsOnly st st1 := by
  cases oa with
  | none =>
    injection h with h
    subst h
    exact sendsOnly_refl st
  | some a => exact sendA_sendsOnly h

theorem sendList_sendsOnly {l : List Action} :
    ∀ {st st1 : LoopState σ}, sendList st l = some st1 → SendsOnly st st1 := by
  induction l with
  | nil =>
    intro st st1 h
    injection h with h
    subst h
    exact sendsOnly_refl st
  | cons a rest ih =>
    intro st st1 h
    unfold sendList at h
    cases hA : sendA st a with
    | none => rw [hA] at h; exact Option.noConfusion h
    | some st2 =>
      rw [hA] at h
      exact sendsOnly_trans (sendA_sendsOnly hA) (ih h)

theorem sendList_ok {l : List Action} :
    ∀ {st : LoopState σ}, st.rxAlive = true →
      sendList st l
        = some { st with queue := st.queue ++ l, enqLog := st.enqLog ++ l } := by
  induction l with
  | nil => intro st h; simp [sendList]
  | cons a rest ih =>
    intro st h
    have hA : sendA st a
        = some { st with queue := st.queue ++ [a], enqLog := st.enqLog ++ [a] } := by
      unfold sendA
      rw [if_pos h]
    simp only [sendList, hA]
    rw [ih (by simpa using h)]
    simp

theorem fanout_sendsOnly (calls : List (σ → Except String (Option Action × σ))) :
    ∀ st : LoopState σ, SendsOnly st (fanout calls st).1 := by
  induction calls with
  | nil => intro st; exact sendsOnly_refl st
  | cons f rest ih =>
    intro st
    unfold fanout
    cases hf : f st.s with
    | error e => exact sendsOnly_refl st
    | ok pr =>
      show SendsOnly st
        (match sendOpt { st with s := pr.2 } pr.1 with
          | none => ({ st with s := pr.2 }, some "channel closed")
          | some st1 => fanout rest st1).1
      cases hs : sendOpt { st with s := pr.2 } pr.1 with
      | none => exact sendsOnly_s st pr.2
      | some st1 =>
        exact sendsOnly_trans
          (sendsOnly_trans (sendsOnly_s st pr.2) (sendOpt_sendsOnly hs)) (ih st1)

theorem tickSaves_append (l : List Action) (a : Action) :
    tickSaves (l ++ [a]) = tickSaves l + (if isSaveTick a then 1 else 0) := by
  unfold tickSaves
  rw [List.filter_append]
  cases hA : isSaveTick a <;> simp [List.filter, hA]

theorem tickBranch_spec (env : Components σ) (i : Nat) (st1 : LoopState σ) :
    (tickBranch env i st1).state
      = { st1 with saves := st1.saves + (if i % 10 == 0 then 1 else 0) } := by
  unfold tickBranch
  split
  case isTrue h =>
    cases env.mainSave st1.s with
    | ok u => simp [StepOut.state, h]
    | error e => simp [StepOut.state, h]
  case isFalse h =>
    simp [StepOut.state, h]

theorem tickBranch_stop {env : Components σ} {i : Nat} {st1 st2 : LoopState σ}
    {q : DStatus} (h : tickBranch env i st1 = StepOut.stop st2 q) :
    ∃ e, q = DStatus.failed e := by
  unfold tickBranch at h
  split at h
  · split at h
    · exact StepOut.noConfusion h
    · injection h with h1 h2
      exact ⟨_, h2.symm⟩
  · exact StepOut.noConfusion h

theorem updateBranch_stop {env : Components σ} {a : Action}
    {st1 st2 : LoopState σ} {q : DStatus}
    (h : updateBranch env a st1 = StepOut.stop st2 q) :
    ∃ e, q = DStatus.failed e := by
  simp only [updateBranch] at h
  split at h
  · exact StepOut.noConfusion h
  · injection h with h1 h2
    exact ⟨_, h2.symm⟩

theorem renderBranch_stop {env : Components σ} {st1 st2 : LoopState σ}
    {q : DStatus} (h : renderBranch env st1 = StepOut.stop st2 q) :
    q = DStatus.panicked ∨ ∃ e, q = DStatus.failed e := by
  simp only [renderBranch] at h
  split at h
  · injection h with h1 h2
    exact Or.inl h2.symm
  · split at h
    · exact StepOut.noConfusion h
    · injection h with h1 h2
      exact Or.inr ⟨_, h2.symm⟩

theorem renderBranch_stop_rx {env : Components σ} {st1 st2 : LoopState σ}
    {q : DStatus} (hrx : st1.rxAlive = true)
    (h : renderBranch env st1 = StepOut.stop st2 q) :
    ∃ e, q = DStatus.failed e := by
  simp only [renderBranch] at h
  rw [sendList_ok
    (show ({ st1 with s := (renderPass env st1.s).s } : LoopState σ).rxAlive = true
      from hrx)] at h
  cases ht : env.tuiDraw with
  | ok u => rw [ht] at h; exact StepOut.noConfusion h
  | error e =>
    rw [ht] at h
    injection h with h1 h2
    exact ⟨e, h2.symm⟩

theorem renderBranch_sendsOnly (env : Components σ) (st1 : LoopState σ) :
    SendsOnly st1 (renderBranch env st1).state := by
  simp only [renderBranch]
  cases hs : sendList { st1 with s := (renderPass env st1.s).s }
      (renderErrors (renderPass env st1.s).results) with
  | none => exact sendsOnly_s st1 _
  | some st2 =>
    have h1 := sendList_sendsOnly hs
    have h0 := sendsOnly_s st1 (renderPass env st1.s).s
    cases env.tuiDraw with
    | ok u => exact sendsOnly_trans h0 h1
    | error e => exact sendsOnly_trans h0 h1

theorem updateBranch_sendsOnly (env : Components σ) (a : Action)
    (st1 : LoopState σ) : SendsOnly st1 (updateBranch env a st1).state := by
  simp only [updateBranch]
  have h := fanout_sendsOnly
    ((env.mainUpdate :: env.compUpdates).map (fun f s => f s a)) st1
  cases hp : (fanout ((env.mainUpdate :: env.compUpdates).map (fun f s => f s a)) st1).2 with
  | none => exact h
  | some e => exact h

/-- Frame conditions of one dispatched action: the processed list is
untouched, the queue and the send log grow by the same suffix, the
consumer flag is untouched, the quit flag is monotone and set by a quit
action, and the save counter grows exactly by one on a due tick. -/
theorem dispatch_frame (env : Components σ) (a : Action) (st1 : LoopState σ) :
    (dispatch env a st1).state.processed = st1.processed
    ∧ (∃ d, (dispatch env a st1).state.queue = st1.queue ++ d
        ∧ (dispatch env a st1).state.enqLog = st1.enqLog ++ d)
    ∧ (dispatch env a st1).state.rxAlive = st1.rxAlive
    ∧ (st1.shouldQuit = true → (dispatch env a st1).state.shouldQuit = true)
    ∧ (a = Action.quit → (dispatch env a st1).state.shouldQuit = true)
    ∧ (dispatch env a st1).state.saves
        = st1.saves + (if isSaveTick a then 1 else 0) := by
  cases a with
  | quit =>
    exact ⟨rfl, ⟨[], by simp [dispatch, StepOut.state], by simp [dispatch, StepOut.state]⟩,
      rfl, fun _ => rfl, fun _ => rfl, by simp [dispatch, StepOut.state, isSaveTick]⟩
  | tick i =>
    simp only [dispatch]
    rw [tickBranch_spec]
    exact ⟨rfl, ⟨[], by simp, by simp⟩, rfl, fun h => h,
      fun h => Action.noConfusion h, rfl⟩
  | render =>
    simp only [dispatch]
    obtain ⟨⟨d, hqd, hed⟩, hp, hf, hr, hs⟩ := renderBranch_sendsOnly env st1
    exact ⟨hp, ⟨d, hqd, hed⟩, hr, fun h => hf.trans h,
      fun h => Action.noConfusion h, by rw [hs]; simp [isSaveTick]⟩
  | error m =>
    simp only [dispatch]
    obtain ⟨⟨d, hqd, hed⟩, hp, hf, hr, hs⟩ := updateBranch_sendsOnly env (Action.error m) st1
    exact ⟨hp, ⟨d, hqd, hed⟩, hr, fun h => hf.trans h,
      fun h => Action.noConfusion h, by rw [hs]; simp [isSaveTick]⟩
  | other t =>
    simp only [dispatch]
    obtain ⟨⟨d, hqd, hed⟩, hp, hf, hr, hs⟩ := updateBranch_sendsOnly env (Action.other t) st1
    exact ⟨hp, ⟨d, hqd, hed⟩, hr, fun h => hf.trans h,
      fun h => Action.noConfusion h, by rw [hs]; simp [isSaveTick]⟩

/-- A stopped dispatch is a panic or a propagated failure, never a
finish. -/
theorem dispatch_stop (env : Components σ) (a : Action) {st1 st2 : LoopState σ}
    {status : DStatus} (h : dispatch env a st1 = StepOut.stop st2 status) :
    status = DStatus.panicked ∨ ∃ e, status = DStatus.failed e := by
  cases a <;> simp only [dispatch] at h
  case quit => exact StepOut.noConfusion h
  case tick i => exact Or.inr (tickBranch_stop h)
  case render => exact renderBranch_stop h
  case error m => exact Or.inr (updateBranch_stop h)
  case other t => exact Or.inr (updateBranch_stop h)

/-- With the consumer alive, a stopped dispatch is always a propagated
failure: the panic branch of the render sends is unreachable. -/
theorem dispatch_stop_rx (env : Components σ) (a : Action) {st1 st2 : LoopState σ}
    {status : DStatus} (hrx : st1.rxAlive = true)
    (h : dispatch env a st1 = StepOut.stop st2 status) :
    ∃ e, status = DStatus.failed e := by
  cases a <;> simp only [dispatch] at h
  case quit => exact StepOut.noConfusion h
  case tick i => exact tickBranch_stop h
  case render => exact renderBranch_stop_rx hrx h
  case error m => exact updateBranch_stop h
  case other t => exact updateBranch_stop h

theorem drainStep_stop_cases (env : Components σ) {st st1 : LoopState σ}
    {status : DStatus} (h : drainStep env st = StepOut.stop st1 status) :
    (st1 = st ∧ status = DStatus.finished ∧ st.queue = [])
    ∨ status ≠ DStatus.finished := by
  unfold drainStep at h
  cases hq : st.queue with
  | nil =>
    rw [hq] at h
    injection h with h1 h2
    exact Or.inl ⟨h1.symm, h2.symm, rfl⟩
  | cons a rest =>
    rw [hq] at h
    rcases dispatch_stop env a h with hp | ⟨e, he⟩
    · subst hp
      exact Or.inr (fun hcon => DStatus.noConfusion hcon)
    · subst he
      exact Or.inr (fun hcon => DStatus.noConfusion hcon)

theorem drainStep_stop_no_panic (env : Components σ) {st st1 : LoopState σ}
    {status : DStatus} (hrx : st.rxAlive = true)
    (h : drainStep env st = StepOut.stop st1 status) :
    status ≠ DStatus.panicked := by
  unfold drainStep at h
  cases hq : st.queue with
  | nil =>
    rw [hq] at h
    injection h with h1 h2
    rw [← h2]
    exact fun hcon => DStatus.noConfusion hcon
  | cons a rest =>
    rw [hq] at h
    obtain ⟨e, he⟩ := dispatch_stop_rx env a
      (show ({ st with queue := rest, processed := st.processed ++ [a] } : LoopState σ).rxAlive = true
        from hrx) h
    subst he
    exact fun hcon => DStatus.noConfusion hcon

theorem drainStep_rx (env : Components σ) (st : LoopState σ) :
    (drainStep env st).state.rxAlive = st.rxAlive := by
  unfold drainStep
  cases hq : st.queue with
  | nil => rfl
  | cons a rest => exact (dispatch_frame env a _).2.2.1

theorem drainStep_inv (env : Components σ) (C : List Action) (st : LoopState σ)
    (h : st.processed ++ st.queue = C ++ st.enqLog) :
    (drainStep env st).state.processed ++ (drainStep env st).state.queue
      = C ++ (drainStep env st).state.enqLog := by
  unfold drainStep
  cases hq : st.queue with
  | nil => exact h
  | cons a rest =>
    obtain ⟨hp, ⟨d, hqd, hed⟩, -, -, -, -⟩ :=
      dispatch_frame env a { st with queue := rest, processed := st.processed ++ [a] }
    rw [hp, hqd, hed]
    rw [hq] at h
    show (st.processed ++ [a]) ++ (rest ++ d) = C ++ (st.enqLog ++ d)
    have h2 : (st.processed ++ [a]) ++ (rest ++ d) = (C ++ st.enqLog) ++ d := by
      rw [← h]; simp
    rw [h2, List.append_assoc]

theorem drainStep_saves (env : Components σ) (st : LoopState σ)
    (h : st.saves = tickSaves st.processed) :
    (drainStep env st).state.saves
      = tickSaves (drainStep env st).state.processed := by
  unfold drainStep
  cases hq : st.queue with
  | nil => exact h
  | cons a rest =>
    obtain ⟨hp, -, -, -, -, hs⟩ :=
      dispatch_frame env a { st with queue := rest, processed := st.processed ++ [a] }
    rw [hp, hs]
    show ({ st with queue := rest, processed := st.processed ++ [a] } : LoopState σ).saves
        + (if isSaveTick a then 1 else 0)
      = tickSaves ({ st with queue := rest, processed := st.processed ++ [a] } : LoopState σ).processed
    show st.saves + (if isSaveTick a then 1 else 0) = tickSaves (st.processed ++ [a])
    rw [tickSaves_append, h]

theorem drainStep_cont_quitPending (env : Components σ) {st st1 : LoopState σ}
    (hs : drainStep env st = StepOut.cont st1)
    (h : Action.quit ∈ st.queue ∨ st.shouldQuit = true) :
    Action.quit ∈ st1.queue ∨ st1.shouldQuit = true := by
  unfold drainStep at hs
  cases hq : st.queue with
  | nil =>
    rw [hq] at hs
    exact StepOut.noConfusion hs
  | cons a rest =>
    rw [hq] at hs
    have hs2 : dispatch env a { st with queue := rest, processed := st.processed ++ [a] }
        = StepOut.cont st1 := hs
    have hst : (dispatch env a
        { st with queue := rest, processed := st.processed ++ [a] }).state = st1 := by
      rw [hs2]
      rfl
    obtain ⟨-, ⟨d, hqd, -⟩, -, hflag, hquit, -⟩ :=
      dispatch_frame env a { st with queue := rest, processed := st.processed ++ [a] }
    rw [hst] at hqd hflag hquit
    rcases h with hmem | hflag0
    · rw [hq] at hmem
      rcases List.mem_cons.mp hmem with heq | hrest
      · exact Or.inr (hquit heq.symm)
      · refine Or.inl ?_
        rw [hqd]
        exact List.mem_append_left d hrest
    · exact Or.inr (hflag hflag0)

theorem drainStep_stop_finished_quit (env : Components σ) {st st1 : LoopState σ}
    {status : DStatus} (hs : drainStep env st = StepOut.stop st1 status)
    (hfin : status = DStatus.finished)
    (h : Action.quit ∈ st.queue ∨ st.shouldQuit = true) :
    st1.shouldQuit = true := by
  rcases drainStep_stop_cases env hs with ⟨he, -, hq⟩ | hne
  · subst he
    rcases h with hmem | hflag
    · rw [hq] at hmem
      simp at hmem
    · exact hflag
  · exact absurd hfin hne

/-- Transport of a state predicate along a full drain pass. -/
theorem drain_st_induct (P : LoopState σ → Prop) (env : Components σ)
    (hstep : ∀ st, P st → P (drainStep env st).state) :
    ∀ fuel (st : LoopState σ), P st → P (drain env fuel st).st := by
  intro fuel
  induction fuel with
  | zero => intro st h; exact h
  | succ n ih =>
    intro st h
    have hstep1 := hstep st h
    simp only [drain]
    cases hs : drainStep env st with
    | cont st1 =>
      rw [hs] at hstep1
      exact ih st1 hstep1
    | stop st1 status =>
      rw [hs] at hstep1
      exact hstep1

theorem drain_finished_queue_empty (env : Components σ) :
    ∀ fuel (st : LoopState σ), (drain env fuel st).status = DStatus.finished →
      (drain env fuel st).st.queue = [] := by
  intro fuel
  induction fuel with
  | zero => intro st h; exact absurd h (by simp [drain])
  | succ n ih =>
    intro st h
    simp only [drain] at h ⊢
    cases hs : drainStep env st with
    | cont st1 =>
      rw [hs] at h
      exact ih st1 h
    | stop st1 status =>
      rw [hs] at h
      rcases drainStep_stop_cases env hs with ⟨he, -, hq⟩ | hne
      · show st1.queue = []
        rw [he]
        exact hq
      · exact absurd h hne

theorem drain_quit (env : Components σ) :
    ∀ fuel (st : LoopState σ),
      (Action.quit ∈ st.queue ∨ st.shouldQuit = true) →
      (drain env fuel st).status = DStatus.finished →
      (drain env fuel st).st.shouldQuit = true := by
  intro fuel
  induction fuel with
  | zero => intro st h hfin; exact absurd hfin (by simp [drain])
  | succ n ih =>
    intro st h hfin
    simp only [drain] at hfin ⊢
    cases hs : drainStep env st with
    | cont st1 =>
      rw [hs] at hfin
      exact ih st1 (drainStep_cont_quitPending env hs h) hfin
    | stop st1 status =>
      rw [hs] at hfin
      exact drainStep_stop_finished_quit env hs hfin h

theorem drain_no_panic (env : Components σ) :
    ∀ fuel (st : LoopState σ), st.rxAlive = true →
      (drain env fuel st).status ≠ DStatus.panicked := by
  intro fuel
  induction fuel with
  | zero => intro st h; simp [drain]
  | succ n ih =>
    intro st h
    simp only [drain]
    cases hs : drainStep env st with
    | cont st1 =>
      have h2 := drainStep_rx env st
      rw [hs] at h2
      exact ih st1 (h2.trans h)
    | stop st1 status =>
      exact drainStep_stop_no_panic env h hs

theorem drain_rx (env : Components σ) :
    ∀ fuel (st : LoopState σ), (drain env fuel st).st.rxAlive = st.rxAlive := by
  intro fuel
  induction fuel with
  | zero => intro st; rfl
  | succ n ih =>
    intro st
    simp only [drain]
    cases hs : drainStep env st with
    | cont st1 =>
      have h2 := drainStep_rx env st
      rw [hs] at h2
      exact (ih st1).trans h2
    | stop st1 status =>
      have h2 := drainStep_rx env st
      rw [hs] at h2
      exact h2

theorem drawComps_ops (ds : List (σ → Option String × σ)) :
    ∀ i s, (drawComps ds i s).2.2 = compOps i ds.length := by
  induction ds with
  | nil => intro i s; rfl
  | cons d rest ih =>
    intro i s
    simp only [drawComps, List.length_cons, compOps]
    rw [ih]

theorem renderPass_drawn (env : Components σ) (s : σ) :
    (renderPass env s).drawn
      = DrawOp.mainD :: DrawOp.logD :: compOps 0 env.compDraws.length := by
  simp only [renderPass]
  rw [drawComps_ops]

theorem renderBranch_ok (env : Components σ) (st1 : LoopState σ)
    (hrx : st1.rxAlive = true) (htui : env.tuiDraw = Except.ok ()) :
    renderBranch env st1 = StepOut.cont
      { st1 with
          s := (renderPass env st1.s).s,
          queue := st1.queue ++ renderErrors (renderPass env st1.s).results,
          enqLog := st1.enqLog ++ renderErrors (renderPass env st1.s).results } := by
  simp only [renderBranch]
  rw [htui, sendList_ok
    (show ({ st1 with s := (renderPass env st1.s).s } : LoopState σ).rxAlive = true
      from hrx)]

/-- How one iteration of the outer loop of App::run ends: continue to the
next awaited event, break out of the loop, fail with a propagated error,
panic, or exhaust the drain fuel. -/
inductive IterOut (σ : Type) : Type where
  | nextIter (st : LoopState σ)
  | exited (st : LoopState σ)
  | ifailed (e : String) (st : LoopState σ)
  | ipanicked (st : LoopState σ)
  | ifuelOut (st : LoopState σ)
deriving DecidableEq

/-- The event phase of one loop iteration of App::run: the global
interception with its send, then the fan-out of the event to the main
component and every attached component in order, each returned action
being sent. A none event (closed source) skips the phase entirely. -/
def postEvents (env : Components σ) (ev : Option Event) (st : LoopState σ) :
    LoopState σ × Option String :=
  match ev with
  | none => (st, none)
  | some e =>
    match sendOpt st (App.handle_events e) with
    | none => (st, some "channel closed")
    | some st1 =>
      fanout ((env.mainHandle :: env.compHandles).map (fun f s => f s e)) st1

/-- One iteration of the outer loop of App::run: the event phase, the
drain pass, then the quit check with its final save before breaking. -/
def iterate (env : Components σ) (ev : Option Event) (dfuel : Nat)
    (st : LoopState σ) : IterOut σ :=
  let p := postEvents env ev st
  match p.2 with
  | some e => IterOut.ifailed e p.1
  | none =>
    let d := drain env dfuel p.1
    match d.status with
    | DStatus.failed e => IterOut.ifailed e d.st
    | DStatus.panicked => IterOut.ipanicked d.st
    | DStatus.fuelOut => IterOut.ifuelOut d.st
    | DStatus.finished =>
      match d.st.shouldQuit with
      | true =>
        match env.mainSave d.st.s with
        | Except.ok _ => IterOut.exited { d.st with saves := d.st.saves + 1 }
        | Except.error e => IterOut.ifailed e { d.st with saves := d.st.saves + 1 }
      | false => IterOut.nextIter d.st

/-- How a whole run ends. -/
inductive ROut : Type where
  | ok
  | failed (e : String)
  | panicked
  | fuelOut
deriving DecidableEq

/-- Result of the outer loop: the outcome, whether tui.end was invoked,
and the final loop state. -/
structure RunRes (σ : Type) : Type where
  out : ROut
  endCalled : Bool
  st : LoopState σ
deriving DecidableEq

/-- The outer loop of App::run with fuel, driven by a stream of optional
events indexed by the iteration number; on a break the terminal restore
tui.end is invoked (the argument te, modelled from the spec since the tui
module is not among the provided sources), while every other way out
returns without invoking it. -/
def loopModel (env : Components σ) (evs : Nat → Option Event)
    (te : Except String Unit) :
    Nat → Nat → Nat → LoopState σ → RunRes σ
  | _, 0, _, st => ⟨ROut.fuelOut, false, st⟩
  | k, lfuel + 1, dfuel, st =>
    match iterate env (evs k) dfuel st with
    | IterOut.nextIter st1 => loopModel env evs te (k + 1) lfuel dfuel st1
    | IterOut.exited st1 =>
      match te with
      | Except.ok _ => ⟨ROut.ok, true, st1⟩
      | Except.error e => ⟨ROut.failed e, true, st1⟩
    | IterOut.ifailed e st1 => ⟨ROut.failed e, false, st1⟩
    | IterOut.ipanicked st1 => ⟨ROut.panicked, false, st1⟩
    | IterOut.ifuelOut st1 => ⟨ROut.fuelOut, false, st1⟩

/-- The startup behaviour of one run: registration of the action sender
and the init calls, each able to fail. -/
structure StartEnv (σ : Type) : Type where
  regMain : σ → Except String σ
  regComps : List (σ → Except String σ)
  initAsyncMain : σ → Except String σ
  initMain : σ → Except String σ
  initComps : List (σ → Except String σ)

/-- One startup operation, for the startup trace. -/
inductive SOp : Type where
  | regMain
  | regComp (i : Nat)
  | initAsyncMain
  | initMain
  | initComp (i : Nat)
deriving DecidableEq

/-- Run a list of fallible calls in order from a start index, recording
the operations attempted and stopping at the first failure. -/
def runSeq (mk : Nat → SOp) :
    List (σ → Except String σ) → Nat → σ → List SOp × Except String σ
  | [], _, s => ([], Except.ok s)
  | f :: rest, i, s =>
    match f s with
    | Except.error e => ([mk i], Except.error e)
    | Except.ok s1 =>
      let p := runSeq mk rest (i + 1) s1
      (mk i :: p.1, p.2)

/-- Sequence two traced fallible computations: the first failure aborts,
and the traces are concatenated. -/
def seqTr (p : List SOp × Except String σ) (k : σ → List SOp × Except String σ) :
    List SOp × Except String σ :=
  match p.2 with
  | Except.error e => (p.1, Except.error e)
  | Except.ok s =>
    let q := k s
    (p.1 ++ q.1, q.2)

/-- A single traced fallible call. -/
def oneCall (op : SOp) (f : σ → Except String σ) (s : σ) :
    List SOp × Except String σ :=
  ([op], f s)

/-- Translation of the startup section of App::run: register the action
sender with the main component then with each attached component, run the
main component async init, its sync init, then each attached component
init; the first failure aborts, and the trace records the calls made. -/
def startup (senv : StartEnv σ) (s : σ) : List SOp × Except String σ :=
  seqTr (oneCall SOp.regMain senv.regMain s) (fun s1 =>
    seqTr (runSeq SOp.regComp senv.regComps 0 s1) (fun s2 =>
      seqTr (oneCall SOp.initAsyncMain senv.initAsyncMain s2) (fun s3 =>
        seqTr (oneCall SOp.initMain senv.initMain s3) (fun s4 =>
          runSeq SOp.initComp senv.initComps 0 s4))))

/-- The list of operations mk i, mk (i+1), ... of a given length. -/
def idxList (mk : Nat → SOp) : Nat → Nat → List SOp
  | _, 0 => []
  | i, n + 1 => mk i :: idxList mk (i + 1) n

/-- The full startup trace the spec prescribes, for n attached component
registrations and m attached component inits. -/
def startupExpected (n m : Nat) : List SOp :=
  SOp.regMain :: idxList SOp.regComp 0 n
    ++ SOp.initAsyncMain :: SOp.initMain :: idxList SOp.initComp 0 m

/-- Result of a whole modelled run of App::run. -/
structure FullRes (σ : Type) : Type where
  out : ROut
  endCalled : Bool
  loopEntered : Bool
  st : LoopState σ
deriving DecidableEq

/-- Translation of App::run end to end: the startup sequence, then the
outer loop started from an empty queue; a startup failure aborts before
the loop is entered. -/
def App.run (senv : StartEnv σ) (env : Components σ) (evs : Nat → Option Event)
    (te : Except String Unit) (lfuel dfuel : Nat) (s0 : σ) : FullRes σ :=
  match (startup senv s0).2 with
  | Except.error e => ⟨ROut.failed e, false, false, initState [] s0⟩
  | Except.ok s1 =>
    let r := loopModel env evs te 0 lfuel dfuel (initState [] s1)
    ⟨r.out, r.endCalled, true, r.st⟩

theorem postEvents_rx (env : Components σ) (ev : Option Event) (st : LoopState σ) :
    (postEvents env ev st).1.rxAlive = st.rxAlive := by
  cases ev with
  | none => rfl
  | some e =>
    simp only [postEvents]
    cases hs : sendOpt st (App.handle_events e) with
    | none => rfl
    | some st1 =>
      have h1 := (sendOpt_sendsOnly hs).2.2.2.1
      have h2 := (fanout_sendsOnly
        ((env.mainHandle :: env.compHandles).map (fun f s => f s e)) st1).2.2.2.1
      exact h2.trans h1

theorem iterate_no_panic (env : Components σ) (ev : Option Event) (dfuel : Nat)
    (st : LoopState σ) (hrx : st.rxAlive = true) :
    (∀ st1, iterate env ev dfuel st ≠ IterOut.ipanicked st1)
    ∧ (∀ st1, iterate env ev dfuel st = IterOut.nextIter st1 →
        st1.rxAlive = true) := by
  have hpe : (postEvents env ev st).1.rxAlive = true :=
    (postEvents_rx env ev st).trans hrx
  have hnp := drain_no_panic env dfuel (postEvents env ev st).1 hpe
  have hdrx := drain_rx env dfuel (postEvents env ev st).1
  simp only [iterate]
  cases hp2 : (postEvents env ev st).2 with
  | some e =>
    exact ⟨fun st1 h => IterOut.noConfusion h, fun st1 h => IterOut.noConfusion h⟩
  | none =>
    cases hdd : drain env dfuel (postEvents env ev st).1 with
    | mk dst dstatus =>
      rw [hdd] at hnp hdrx
      cases dstatus with
      | failed e =>
        exact ⟨fun st1 h => IterOut.noConfusion h, fun st1 h => IterOut.noConfusion h⟩
      | panicked => exact absurd rfl hnp
      | fuelOut =>
        exact ⟨fun st1 h => IterOut.noConfusion h, fun st1 h => IterOut.noConfusion h⟩
      | finished =>
        cases hq : dst.shouldQuit with
        | true =>
          cases env.mainSave dst.s with
          | ok u =>
            exact ⟨fun st1 h => IterOut.noConfusion h,
              fun st1 h => IterOut.noConfusion h⟩
          | error e =>
            exact ⟨fun st1 h => IterOut.noConfusion h,
              fun st1 h => IterOut.noConfusion h⟩
        | false =>
          refine ⟨fun st1 h => IterOut.noConfusion h, fun st1 h => ?_⟩
          injection h with h1
          rw [← h1]
          exact hdrx.trans hpe

theorem loopModel_no_panic (env : Components σ) (evs : Nat → Option Event)
    (te : Except String Unit) :
    ∀ lfuel k dfuel (st : LoopState σ), st.rxAlive = true →
      (loopModel env evs te k lfuel dfuel st).out ≠ ROut.panicked := by
  intro lfuel
  induction lfuel with
  | zero => intro k dfuel st h; exact fun hcon => ROut.noConfusion hcon
  | succ n ih =>
    intro k dfuel st h
    simp only [loopModel]
    cases hi : iterate env (evs k) dfuel st with
    | nextIter st1 =>
      exact ih (k + 1) dfuel st1 ((iterate_no_panic env (evs k) dfuel st h).2 st1 hi)
    | exited st1 =>
      cases te with
      | ok u => exact fun hcon => ROut.noConfusion hcon
      | error e => exact fun hcon => ROut.noConfusion hcon
    | ifailed e st1 => exact fun hcon => ROut.noConfusion hcon
    | ipanicked st1 =>
      exact absurd hi ((iterate_no_panic env (evs k) dfuel st h).1 st1)
    | ifuelOut st1 => exact fun hcon => ROut.noConfusion hcon

theorem seqTr_ok {p : List SOp × Except String σ}
    {k : σ → List SOp × Except String σ} {s1 : σ}
    (h : (seqTr p k).2 = Except.ok s1) :
    ∃ s, p.2 = Except.ok s ∧ (k s).2 = Except.ok s1
      ∧ (seqTr p k).1 = p.1 ++ (k s).1 := by
  unfold seqTr at h ⊢
  cases hp : p.2 with
  | error e =>
    rw [hp] at h
    exact absurd h (by simp)
  | ok s =>
    rw [hp] at h
    exact ⟨s, rfl, h, rfl⟩

theorem runSeq_ok (mk : Nat → SOp) (fs : List (σ → Except String σ)) :
    ∀ i s s1, (runSeq mk fs i s).2 = Except.ok s1 →
      (runSeq mk fs i s).1 = idxList mk i fs.length := by
  induction fs with
  | nil => intro i s s1 h; rfl
  | cons f rest ih =>
    intro i s s1 h
    simp only [runSeq] at h ⊢
    cases hf : f s with
    | error e =>
      rw [hf] at h
      exact absurd h (by simp)
    | ok s2 =>
      rw [hf] at h
      have h2 : (runSeq mk rest (i + 1) s2).2 = Except.ok s1 := h
      rw [List.length_cons]
      show mk i :: (runSeq mk rest (i + 1) s2).1 = idxList mk i (rest.length + 1)
      rw [idxList, ih (i + 1) s2 s1 h2]

theorem startup_ok_trace (senv : StartEnv σ) (s0 : σ) {s9 : σ}
    (h : (startup senv s0).2 = Except.ok s9) :
    (startup senv s0).1
      = startupExpected senv.regComps.length senv.initComps.length := by
  unfold startup at h ⊢
  obtain ⟨s1, h1, hk1, t1⟩ := seqTr_ok h
  obtain ⟨s2, h2, hk2, t2⟩ := seqTr_ok hk1
  obtain ⟨s3, h3, hk3, t3⟩ := seqTr_ok hk2
  obtain ⟨s4, h4, hk4, t4⟩ := seqTr_ok hk3
  simp only [t1, t2, t3, t4, runSeq_ok SOp.regComp senv.regComps 0 s1 s2 h2,
    runSeq_ok SOp.initComp senv.initComps 0 s4 s9 hk4]
  simp [startupExpected, oneCall]

/-- On a finished drain pass from a fresh state, the processed sequence
is the initial queue followed by the actions sent during the pass. -/
theorem drain_processed_eq (env : Components σ) (fuel : Nat) (q0 : List Action)
    (s0 : σ)
    (hfin : (drain env fuel (initState q0 s0)).status = DStatus.finished) :
    (drain env fuel (initState q0 s0)).st.processed
      = q0 ++ (drain env fuel (initState q0 s0)).st.enqLog := by
  have hq := drain_finished_queue_empty env fuel (initState q0 s0) hfin
  have h := drain_st_induct
    (fun x => x.processed ++ x.queue = q0 ++ x.enqLog) env
    (fun st hst => drainStep_inv env q0 st hst) fuel (initState q0 s0)
    (by simp [initState])
  have h2 : (drain env fuel (initState q0 s0)).st.processed
        ++ (drain env fuel (initState q0 s0)).st.queue
      = q0 ++ (drain env fuel (initState q0 s0)).st.enqLog := h
  rw [hq] at h2
  simpa using h2

/-- C1: the drain pass dequeues in first-in-first-out order and finishes
only with the queue observed empty: whenever the pass finishes, the final
queue is empty and the processed sequence is exactly the initially
enqueued actions followed, in send order, by every action enqueued during
the pass itself (follow-ups included), so nothing enqueued during the
pass is left for the next event cycle. -/
theorem drain_fifo_complete (env : Components σ) (fuel : Nat) (q0 : List Action)
    (s0 : σ)
    (hfin : (drain env fuel (initState q0 s0)).status = DStatus.finished) :
    (drain env fuel (initState q0 s0)).st.queue = []
    ∧ (drain env fuel (initState q0 s0)).st.processed
        = q0 ++ (drain env fuel (initState q0 s0)).st.enqLog :=
  ⟨drain_finished_queue_empty env fuel (initState q0 s0) hfin,
    drain_processed_eq env fuel q0 s0 hfin⟩

/-- The environment of a run with one trivial main component whose update
answers the action other 0 with the follow-up other 1. -/
def envU : Components Unit :=
  { mainHandle := fun s _ => Except.ok (none, s),
    compHandles := [],
    mainUpdate := fun s a =>
      match a with
      | Action.other 0 => Except.ok (some (Action.other 1), s)
      | _ => Except.ok (none, s),
    compUpdates := [],
    mainSave := fun _ => Except.ok (),
    mainDraw := fun s => (none, s),
    logDraw := fun _ => none,
    compDraws := [],
    tuiDraw := Except.ok () }

/-- Witness for drain_fifo_complete: draining the single action other 0,
whose update enqueues the follow-up other 1, processes both in the same
pass. -/
theorem drain_fifo_complete_witness :
    (drain envU 4 (initState [Action.other 0] ())).st.queue = []
    ∧ (drain envU 4 (initState [Action.other 0] ())).st.processed
        = [Action.other 0] ++ (drain envU 4 (initState [Action.other 0] ())).st.enqLog :=
  drain_fifo_complete envU 4 [Action.other 0] () rfl

/-- C2: along any drain pass from a fresh state the save counter equals
the number of processed tick actions whose sequence number is divisible
by ten: a tick triggers persistence exactly when n mod 10 = 0, and no
other action kind ever does. -/
theorem tick_save_iff_mod_ten (env : Components σ) (fuel : Nat)
    (q0 : List Action) (s0 : σ) :
    (drain env fuel (initState q0 s0)).st.saves
      = tickSaves (drain env fuel (initState q0 s0)).st.processed :=
  drain_st_induct (fun x => x.saves = tickSaves x.processed) env
    (fun st hst => drainStep_saves env st hst) fuel (initState q0 s0)
    (by simp [initState, tickSaves])

/-- C3: a quit action in the queue sets the quit flag without exiting the
pass: when the drain finishes, every queued action (including the ones
after the quit and every follow-up sent during the pass) has been
processed, the flag is set, and the iteration then runs exactly one more
save and exits the loop, whatever the last tick number was. -/
theorem quit_drains_all_then_saves_once (env : Components σ) (dfuel : Nat)
    (q0 : List Action) (s0 : σ)
    (hq : Action.quit ∈ q0)
    (hfin : (drain env dfuel (initState q0 s0)).status = DStatus.finished)
    (hsave : env.mainSave (drain env dfuel (initState q0 s0)).st.s
      = Except.ok ()) :
    (drain env dfuel (initState q0 s0)).st.processed
        = q0 ++ (drain env dfuel (initState q0 s0)).st.enqLog
    ∧ (drain env dfuel (initState q0 s0)).st.shouldQuit = true
    ∧ iterate env none dfuel (initState q0 s0)
        = IterOut.exited
            { (drain env dfuel (initState q0 s0)).st with
                saves := (drain env dfuel (initState q0 s0)).st.saves + 1 } := by
  have hflag := drain_quit env dfuel (initState q0 s0) (Or.inl hq) hfin
  refine ⟨drain_processed_eq env dfuel q0 s0 hfin, hflag, ?_⟩
  simp only [iterate, postEvents]
  cases hdd : drain env dfuel (initState q0 s0) with
  | mk dst dstatus =>
    rw [hdd] at hfin hflag hsave
    cases hfin
    rw [hflag, hsave]

/-- Witness for quit_drains_all_then_saves_once: the queue quit then tick
7 is fully drained (the tick is still processed after the quit), no save
happens during the pass, and the iteration exits after exactly one more
save. -/
theorem quit_drains_all_then_saves_once_witness :
    (drain envU 4 (initState [Action.quit, Action.tick 7] ())).st.processed
        = [Action.quit, Action.tick 7]
          ++ (drain envU 4 (initState [Action.quit, Action.tick 7] ())).st.enqLog
    ∧ (drain envU 4 (initState [Action.quit, Action.tick 7] ())).st.shouldQuit = true
    ∧ iterate envU none 4 (initState [Action.quit, Action.tick 7] ())
        = IterOut.exited
            { (drain envU 4 (initState [Action.quit, Action.tick 7] ())).st with
                saves := (drain envU 4 (initState [Action.quit, Action.tick 7] ())).st.saves + 1 } :=
  quit_drains_all_then_saves_once envU 4 [Action.quit, Action.tick 7] ()
    (by decide) rfl rfl

/-- C4 counterexample: the loop does not exit when the event source is
closed. One iteration with a none event from the fresh state continues to
the next iteration instead of exiting, and five full iterations with a
constantly closed source still leave the loop running (fuel exhausted,
terminal never restored), refuting the claim that the loop exits on
source closure. -/
theorem closed_source_loop_continues_cex :
    iterate envU none 3 (initState [] ()) = IterOut.nextIter (initState [] ())
    ∧ (loopModel envU (fun _ => none) (Except.ok ()) 0 5 3 (initState [] ())).out
        = ROut.fuelOut
    ∧ (loopModel envU (fun _ => none) (Except.ok ()) 0 5 3 (initState [] ())).endCalled
        = false :=
  ⟨rfl, rfl, rfl⟩

/-- C4 amended: when next_event returns none the iteration merely skips
the event phase; from any state with an empty queue and the quit flag
clear, the loop with a constantly closed source never exits and never
invokes the terminal restore, running until its fuel is exhausted with
the state unchanged. -/
theorem closed_source_never_exits (env : Components σ) (te : Except String Unit)
    (k lfuel dfuel : Nat) (st : LoopState σ)
    (hq : st.queue = []) (hflag : st.shouldQuit = false) :
    loopModel env (fun _ => none) te k lfuel dfuel st
      = ⟨ROut.fuelOut, false, st⟩ := by
  induction lfuel generalizing k with
  | zero => rfl
  | succ n ih =>
    simp only [loopModel]
    cases dfuel with
    | zero =>
      have hiter : iterate env none 0 st = IterOut.ifuelOut st := rfl
      rw [hiter]
    | succ m =>
      have hdr : drain env (m + 1) st = ⟨st, DStatus.finished⟩ := by
        simp only [drain, drainStep, hq]
      have hiter : iterate env none (m + 1) st = IterOut.nextIter st := by
        simp only [iterate, postEvents, hdr, hflag]
      rw [hiter]
      exact ih (k + 1)

/-- Witness for closed_source_never_exits at a concrete environment and
fuel. -/
theorem closed_source_never_exits_witness :
    loopModel envU (fun _ => none) (Except.ok ()) 0 6 2 (initState [] ())
      = ⟨ROut.fuelOut, false, initState [] ()⟩ :=
  closed_source_never_exits envU (Except.ok ()) 0 6 2 (initState [] ()) rfl rfl

/-- C5: when the head of the queue is a render action, the render closure
draws the main component, the log component and every attached component
in order regardless of individual draw failures, each failure is turned
into an error action enqueued on the queue (in draw order), and the drain
loop continues with the remaining actions rather than propagating the
failure. -/
theorem draw_error_isolated (env : Components σ) (fuel : Nat)
    (st : LoopState σ) (rest : List Action)
    (hq : st.queue = Action.render :: rest)
    (hrx : st.rxAlive = true)
    (htui : env.tuiDraw = Except.ok ()) :
    (renderPass env st.s).drawn
        = DrawOp.mainD :: DrawOp.logD :: compOps 0 env.compDraws.length
    ∧ drain env (fuel + 1) st = drain env fuel
        { st with
            queue := rest ++ renderErrors (renderPass env st.s).results,
            processed := st.processed ++ [Action.render],
            enqLog := st.enqLog ++ renderErrors (renderPass env st.s).results,
            s := (renderPass env st.s).s } := by
  refine ⟨renderPass_drawn env st.s, ?_⟩
  have hstep : drainStep env st = StepOut.cont
      { st with
          queue := rest ++ renderErrors (renderPass env st.s).results,
          processed := st.processed ++ [Action.render],
          enqLog := st.enqLog ++ renderErrors (renderPass env st.s).results,
          s := (renderPass env st.s).s } := by
    unfold drainStep
    rw [hq]
    show dispatch env Action.render
        { st with queue := rest, processed := st.processed ++ [Action.render] } = _
    simp only [dispatch]
    rw [renderBranch_ok env _
      (show ({ st with queue := rest, processed := st.processed ++ [Action.render] }
          : LoopState σ).rxAlive = true from hrx) htui]
  simp only [drain]
  rw [hstep]

/-- The environment envU with a failing main draw and one attached
component whose draw also fails. -/
def envDrawFail : Components Unit :=
  { envU with
    mainDraw := fun s => (some "main boom", s),
    compDraws := [fun s => (some "extra boom", s)] }

/-- Witness for draw_error_isolated: with the main draw and the attached
component draw both failing, every draw call of the frame is still
made. -/
theorem draw_error_isolated_witness :
    (renderPass envDrawFail ()).drawn
      = DrawOp.mainD :: DrawOp.logD :: compOps 0 envDrawFail.compDraws.length :=
  (draw_error_isolated envDrawFail 2 (initState [Action.render] ()) []
    rfl rfl rfl).1

/-- The event stream delivering tick 10 first and nothing afterwards. -/
def tickTenOnce : Nat → Option Event :=
  fun k => if k = 0 then some (Event.tick 10) else none

/-- The event stream delivering the control-q key event first and nothing
afterwards. -/
def ctrlQOnce : Nat → Option Event :=
  fun k =>
    if k = 0 then some (Event.key ⟨KeyCode.char 'q', KeyModifiers.CONTROL⟩)
    else none

/-- A trivial startup environment. -/
def startU : StartEnv Unit :=
  { regMain := Except.ok, regComps := [], initAsyncMain := Except.ok,
    initMain := Except.ok, initComps := [] }

/-- The environment envU with a failing save. -/
def envSaveFail : Components Unit :=
  { envU with mainSave := fun _ => Except.error "save failed" }

/-- C6 (refuting the claim on the code as written): when the save run for
tick 10 fails, App::run propagates the error with the question-mark
operator and returns without ever invoking the terminal restore tui.end;
the restore is invoked only on the normal quit exit path, not on every
exit path. -/
theorem save_error_exit_skips_end :
    (App.run startU envSaveFail tickTenOnce (Except.ok ()) 4 4 ()).out
        = ROut.failed "save failed"
    ∧ (App.run startU envSaveFail tickTenOnce (Except.ok ()) 4 4 ()).endCalled = false
    ∧ (App.run startU envU ctrlQOnce (Except.ok ()) 4 4 ()).out = ROut.ok
    ∧ (App.run startU envU ctrlQOnce (Except.ok ()) 4 4 ()).endCalled = true :=
  ⟨rfl, rfl, rfl, rfl⟩

/-- C8: startup performs, in order, the action-handler registration of
the main component then of every attached component, then the main async
init, the main sync init, then each attached component init — so the main
component is registered and initialized before any attached component —
and any startup failure makes App::run return that error before the main
loop is ever entered. -/
theorem startup_order_and_abort (senv : StartEnv σ) (s0 : σ) :
    (∀ s1, (startup senv s0).2 = Except.ok s1 →
        (startup senv s0).1
          = startupExpected senv.regComps.length senv.initComps.length)
    ∧ (∀ e (env : Components σ) (evs : Nat → Option Event)
        (te : Except String Unit) (lfuel dfuel : Nat),
        (startup senv s0).2 = Except.error e →
          App.run senv env evs te lfuel dfuel s0
            = ⟨ROut.failed e, false, false, initState [] s0⟩) := by
  constructor
  · intro s1 h
    exact startup_ok_trace senv s0 h
  · intro e env evs te lfuel dfuel h
    simp only [App.run]
    rw [h]

/-- A startup environment with two attached registrations and one
attached init, all succeeding. -/
def startTrace : StartEnv Unit :=
  { regMain := Except.ok, regComps := [Except.ok, Except.ok],
    initAsyncMain := Except.ok, initMain := Except.ok,
    initComps := [Except.ok] }

/-- Witness for startup_order_and_abort: the successful startup trace at
a concrete environment is exactly the prescribed order. -/
theorem startup_order_and_abort_witness :
    (startup startTrace ()).1 = startupExpected 2 1 :=
  (startup_order_and_abort startTrace ()).1 () rfl

/-- C10: the orchestrator holds the unique consumer of the action channel
for the whole run and never drops it while the loop runs, so every send
performed inside the render pass succeeds: no drain pass from a fresh
state can report the panic of the expect calls, and a whole modelled run
never ends in one. -/
theorem render_send_never_panics (senv : StartEnv σ) (env : Components σ)
    (evs : Nat → Option Event) (te : Except String Unit) (lfuel dfuel : Nat)
    (s0 : σ) :
    (∀ fuel q0, (drain env fuel (initState q0 s0)).status ≠ DStatus.panicked)
    ∧ (App.run senv env evs te lfuel dfuel s0).out ≠ ROut.panicked := by
  constructor
  · intro fuel q0
    exact drain_no_panic env fuel (initState q0 s0) rfl
  · simp only [App.run]
    cases hs : (startup senv s0).2 with
    | error e => exact fun hcon => ROut.noConfusion hcon
    | ok s1 =>
      exact loopModel_no_panic env evs te lfuel 0 dfuel (initState [] s1) rfl

/-- Witness for render_send_never_panics at a concrete run. -/
theorem render_send_never_panics_witness :
    (App.run startU envDrawFail ctrlQOnce (Except.ok ()) 4 4 ()).out
      ≠ ROut.panicked :=
  (render_send_never_panics startU envDrawFail ctrlQOnce (Except.ok ()) 4 4 ()).2

end Tuisky
